import Mathlib

/-!
Verification of the benthos codec reader and Bloblang query evaluator
against their natural-language specification.

The definitions below are shallow embeddings of the Go sources under
`internal/codec/reader.go`, `internal/bloblang/query/methods_structured.go`,
`internal/bloblang/query/methods.go` and the `FunctionSet` code shipped with
`internal/bloblang/query/method_set_test.go`.  Machine integers are modelled
as `Int`/`Nat` with explicit wrapping where 64-bit overflow matters, Go
`float64` values are modelled as exact rationals (`ℚ`) — every claim under
study only exercises values on which `float64` arithmetic is exact — and
fallible Go code returns `Except`.
-/

namespace Codec

/-- Embedding of Go `filepath.Ext` (used by `autoCodec`, reader.go:264):
scan the path right-to-left, stop at a path separator, and return the suffix
starting at the last dot (inclusive); empty string when there is no dot in
the final path element. -/
def filepathExtGo : List Char → List Char → Option (List Char)
  | [], _ => none
  | c :: rest, acc =>
    if c = '/' then none
    else if c = '.' then some (c :: acc)
    else filepathExtGo rest (c :: acc)

/-- Go `filepath.Ext path`. -/
def filepathExt (path : String) : String :=
  match filepathExtGo path.data.reverse [] with
  | some l => ⟨l⟩
  | none => ""

/-- Go `strings.HasSuffix s suffix`. -/
def hasSuffixGo (s suffix : String) : Bool :=
  List.isSuffixOf suffix.data s.data

/-- Embedding of `autoCodec` (reader.go:261-286): the codec string chosen for
a path by the `auto` codec.  The switch ranges over `filepath.Ext path`, then
two `strings.HasSuffix` checks override the choice. -/
def autoCodec (path : String) : String :=
  let codec :=
    if filepathExt path = ".csv" then "csv"
    else if filepathExt path = ".csv.gz" ∨ filepathExt path = ".csv.gzip" then "gzip/csv"
    else if filepathExt path = ".tar" then "tar"
    else if filepathExt path = ".tgz" then "gzip/tar"
    else "all-bytes"
  if hasSuffixGo path ".tar.gzip" then "gzip/tar"
  else if hasSuffixGo path ".tar.gz" then "gzip/tar"
  else codec

/-! ### Acknowledgment lifecycle of the leaf readers

`linesReader`, `csvReader`, `customDelimReader`, `chunkerReader` and
`tarReader` (reader.go:319-728) share, verbatim, the same acknowledgment
bookkeeping: a `sourceAck` wrapped by `ackOnce` at construction, a `pending`
counter and a `finished` flag guarded by a mutex, the per-part `ack` method,
and the same `Close`.  We embed that shared logic once as a transition
system; since the mutex serialises every block that touches the state, an
arbitrary concurrent execution is exactly an arbitrary interleaving, i.e. an
arbitrary event trace of this machine.  The fire log records every call that
reaches the *underlying* source ack (`none` = called with `nil`). -/

/-- State of a counted leaf reader: `pending`/`finished`
(e.g. reader.go:324-327), the `sync.Once` guard installed by `ackOnce`
(reader.go:59-68), and the log of calls that reached the wrapped source
ack. -/
structure CRState where
  pending : Int
  finished : Bool
  onceUsed : Bool
  fireLog : List (Option String)
  deriving DecidableEq, Repr

/-- `ackOnce` (reader.go:59-68): invoke the underlying source ack only if the
`sync.Once` has not been used yet. -/
def fireSourceAck (s : CRState) (e : Option String) : CRState :=
  if s.onceUsed then s
  else { s with onceUsed := true, fireLog := s.fireLog ++ [e] }

/-- The error `Close` acks with when the reader is not finished
(e.g. reader.go:383). -/
def shutdownMsg : String := "service shutting down"

/-- Events of a counted leaf reader.
`nextPart`: `Next` emits a part (e.g. reader.go:361-365);
`nextEOF`: `Next` observes end of input without error (reader.go:369-371);
`nextPartEOF`: `chunkerReader.Next` reads a final chunk together with EOF
(reader.go:625-639), emitting a part and setting `finished` at once;
`nextErr e`: `Next` hits a read error and acks the source with it
(reader.go:372-373);
`ackPart e`: a previously returned per-part ack is invoked with `e`
(reader.go:341-354);
`close`: `Close` (reader.go:378-389). -/
inductive CREvent where
  | nextPart
  | nextEOF
  | nextPartEOF
  | nextErr (e : String)
  | ackPart (e : Option String)
  | close
  deriving DecidableEq, Repr

/-- One step of the counted leaf reader, straight from the Go bodies. -/
def crStep (s : CRState) : CREvent → CRState
  | .nextPart => { s with pending := s.pending + 1 }
  | .nextEOF => { s with finished := true }
  | .nextPartEOF => { s with pending := s.pending + 1, finished := true }
  | .nextErr e => fireSourceAck s (some e)
  | .ackPart e =>
    let s' := { s with pending := s.pending - 1 }
    match e with
    | some err => fireSourceAck s' (some err)
    | none =>
      if s'.pending = 0 ∧ s'.finished then fireSourceAck s' none else s'
  | .close =>
    let s' := if s.finished then s else fireSourceAck s (some shutdownMsg)
    if s.pending = 0 then fireSourceAck s' none else s'

/-- Construction state (reader.go:334-338 and analogues). -/
def crInit : CRState := ⟨0, false, false, []⟩

/-- Run a trace of events against a counted leaf reader. -/
def crRun (t : List CREvent) : CRState := t.foldl crStep crInit

/-- Number of parts emitted in a trace. -/
def crPartCount : List CREvent → Nat
  | [] => 0
  | .nextPart :: rest => crPartCount rest + 1
  | .nextPartEOF :: rest => crPartCount rest + 1
  | _ :: rest => crPartCount rest

/-- Number of per-part ack invocations in a trace. -/
def crAckCount : List CREvent → Nat
  | [] => 0
  | .ackPart _ :: rest => crAckCount rest + 1
  | _ :: rest => crAckCount rest

/-- Recogniser for per-part ack events. -/
def crIsAck : CREvent → Bool
  | .ackPart _ => true
  | _ => false

/-- The single-fire invariant: the underlying source ack has been called
exactly as often as the `sync.Once` guard has been consumed. -/
def crInv (s : CRState) : Prop :=
  s.fireLog.length = (if s.onceUsed then 1 else 0)

/-! ### The all-bytes reader

`allBytesReader` (reader.go:290-315) is built with the *raw* source ack:
`partReader` (reader.go:207-208) stores `fn` without wrapping it in
`ackOnce`, and `Next` hands that raw function out as the per-part ack. -/

/-- State of `allBytesReader`: the `consumed` flag and the log of calls that
reached the source ack. -/
structure ABState where
  consumed : Bool
  fireLog : List (Option String)
  deriving DecidableEq, Repr

/-- Events of `allBytesReader`.  `next`: a successful `Next` (consumes the
stream and returns the part plus `a.ack`); `nextFail e`: `Next` whose
`ReadAll` fails, acking the source with `e` (reader.go:301-305); `ackCall e`:
the returned per-part ack — the raw source ack — is invoked with `e`;
`close`: `Close` (reader.go:310-315). -/
inductive ABEvent where
  | next
  | nextFail (e : String)
  | ackCall (e : Option String)
  | close
  deriving DecidableEq, Repr

/-- One step of `allBytesReader`.  Note the absence of any once-guard: every
`ackCall` reaches the source ack. -/
def abStep (s : ABState) : ABEvent → ABState
  | .next => if s.consumed then s else { s with consumed := true }
  | .nextFail e =>
    if s.consumed then s
    else { consumed := true, fireLog := s.fireLog ++ [some e] }
  | .ackCall e => { s with fireLog := s.fireLog ++ [e] }
  | .close =>
    if s.consumed then s else { s with fireLog := s.fireLog ++ [some shutdownMsg] }

/-- Run a trace against a fresh `allBytesReader`. -/
def abRun (t : List ABEvent) : ABState := t.foldl abStep ⟨false, []⟩

/-! ### The multipart wrapper

`multipartReader` (reader.go:732-786) wraps an upstream `Reader`.  A part is
modelled by its payload (a byte list); an upstream `Next` call either yields
a part slice together with its ack (identified by a number so the fan-out can
be observed), or ends with `io.EOF`, or fails.  A call to the wrapper's
`Next` is a fold over a script of upstream responses. -/

/-- `isEmpty` (reader.go:742-750): no sub-parts, or exactly one sub-part with
zero-length payload. -/
def isEmpty (p : List (List Nat)) : Bool :=
  if p.length = 0 then true
  else if p.length = 1 ∧ (p.headI).length = 0 then true
  else false

/-- One response of the upstream reader to `m.child.Next`. -/
inductive ChildResp where
  | parts (ps : List (List Nat)) (ackId : Nat)
  | eofResp
  | errResp (e : String)
  deriving DecidableEq, Repr

/-- Outcome of the wrapper's `Next`: a batch with the accumulated upstream
ack ids, `io.EOF`, an upstream error, or an exhausted script (the Go loop
would block on its child; unreachable for scripts that end in
`eofResp`/`errResp`). -/
inductive MpOut where
  | batch (ps : List (List Nat)) (acks : List Nat)
  | eofOut
  | errOut (e : String)
  | noInput
  deriving DecidableEq, Repr

/-- `multipartReader.Next` (reader.go:752-782) as a function of the upstream
script, the accumulated parts and the accumulated ack ids; it returns the
list of upstream acks invoked immediately (each with nil — reader.go:772)
together with the outcome. -/
def multipartNext : List ChildResp → List (List Nat) → List Nat →
    List Nat × MpOut
  | [], _, _ => ([], .noInput)
  | .eofResp :: _, acc, acks =>
    if acc.length > 0 then ([], .batch acc acks) else ([], .eofOut)
  | .errResp e :: _, _, _ => ([], .errOut e)
  | .parts ps i :: rest, acc, acks =>
    if isEmpty ps then
      if acc.length > 0 then ([i], .batch acc acks)
      else
        let r := multipartNext rest acc acks
        (i :: r.1, r.2)
    else multipartNext rest (acc ++ ps) (acks ++ [i])

/-- The combined ack closure built by `multipartReader.Next`
(reader.go:756-761): forward the argument to every accumulated upstream ack
in order, then return nil regardless of what they returned. -/
def multipartCombinedAck (acks : List Nat) (e : Option String) :
    List (Nat × Option String) × Option String :=
  (acks.map fun i => (i, e), none)

/-- Spec-side restatement of the multipart contract (spec §4.4), phrased
without the Go loop: drop the leading empty responses (each acked
immediately with nil), accumulate the following run of non-empty part
responses, and decide from the first terminator — an empty part response
closes a batch (and is itself acked), EOF flushes a non-empty accumulation or
propagates, and any other error propagates. -/
def respEmpty : ChildResp → Bool
  | .parts ps _ => isEmpty ps
  | _ => false

/-- A response carrying a non-empty part slice. -/
def respFull : ChildResp → Bool
  | .parts ps _ => ¬isEmpty ps
  | _ => false

/-- Ack id of a parts response (0 otherwise; only applied to parts). -/
def respAckId : ChildResp → Nat
  | .parts _ i => i
  | _ => 0

/-- Payload parts of a response. -/
def respParts : ChildResp → List (List Nat)
  | .parts ps _ => ps
  | _ => []

/-- Accumulation phase of the spec-side contract: some parts are already
accumulated (`acc` non-empty).  The reader keeps accumulating the upcoming
run of non-empty part responses; the first terminator decides: an empty part
response closes the batch and is acked immediately with nil, EOF flushes the
accumulation as the final batch, any other upstream error propagates. -/
def mpAccumSpec (script : List ChildResp) (acc : List (List Nat))
    (acks : List Nat) : List Nat × MpOut :=
  let seg := script.takeWhile respFull
  let rest2 := script.dropWhile respFull
  let bp := acc ++ (seg.map respParts).flatten
  let ba := acks ++ seg.map respAckId
  match rest2 with
  | [] => ([], .noInput)
  | .eofResp :: _ => ([], .batch bp ba)
  | .errResp e :: _ => ([], .errOut e)
  | .parts _ i :: _ => ([i], .batch bp ba)

/-- The multipart contract, following the specification text (spec §4.4):
leading empty parts are acked immediately with nil and never surface; EOF
before anything accumulates propagates as EOF; an upstream error propagates;
the first non-empty part response opens the accumulation phase. -/
def multipartNextSpec (script : List ChildResp) : List Nat × MpOut :=
  let lead := script.takeWhile respEmpty
  let rest1 := script.dropWhile respEmpty
  let leadAcks := lead.map respAckId
  match rest1 with
  | [] => (leadAcks, .noInput)
  | .eofResp :: _ => (leadAcks, .eofOut)
  | .errResp e :: _ => (leadAcks, .errOut e)
  | .parts ps i :: rest =>
    let r := mpAccumSpec rest ps [i]
    (leadAcks ++ r.1, r.2)

end Codec

namespace Bloblang

/-! ### The dynamic value model

Go `interface{}` values handled by the query package, restricted to the
kinds the claims exercise.  `vint`/`vuint`/`vfloat` model `int64`/`uint64`/
`float64` after `ISanitize` normalisation; `vnum` models a deferred
`json.Number`; `float64` is modelled as an exact rational, which is faithful
for every value these claims touch. -/
inductive Value where
  | vnull
  | vbool (b : Bool)
  | vint (n : Int)
  | vuint (n : Nat)
  | vfloat (q : ℚ)
  | vnum (s : String)
  | vstr (s : String)
  | vbytes (bs : List Nat)
  | varr (l : List Value)
  | vobj (l : List (String × Value))

/-- `ITypeOf`-style kind names used inside error messages. -/
def kindOf : Value → String
  | .vnull => "null"
  | .vbool _ => "bool"
  | .vint _ => "number"
  | .vuint _ => "number"
  | .vfloat _ => "number"
  | .vnum _ => "number"
  | .vstr _ => "string"
  | .vbytes _ => "bytes"
  | .varr _ => "array"
  | .vobj _ => "object"

/-- Reduction of an integer into Go's 64-bit signed representation. -/
def i64 (x : Int) : Int := (x + 2 ^ 63) % 2 ^ 64 - 2 ^ 63

/-- Decimal digit accumulation for the number parsers. -/
def digitsToNat : List Char → Nat → Option Nat
  | [], acc => some acc
  | c :: rest, acc =>
    if '0' ≤ c ∧ c ≤ '9' then digitsToNat rest (acc * 10 + (c.toNat - 48))
    else none

/-- Parse a non-empty run of decimal digits. -/
def parseDigits (l : List Char) : Option Nat :=
  if l.isEmpty then none else digitsToNat l 0

/-- Decimal integer parse (an optional leading minus then digits). -/
def parseIntD (s : String) : Option Int :=
  match s.data with
  | '-' :: rest => (parseDigits rest).map fun n => -(n : Int)
  | l => (parseDigits l).map fun n => (n : Int)

/-- Parse an unsigned decimal, optionally with a fractional part. -/
def parsePosQ (l : List Char) : Option ℚ :=
  let ip := l.takeWhile fun c => c ≠ '.'
  match l.dropWhile fun c => c ≠ '.' with
  | [] => (parseDigits ip).map fun n => (n : ℚ)
  | _ :: frac =>
    match parseDigits ip, parseDigits frac with
    | some a, some b => some ((a : ℚ) + (b : ℚ) / (10 : ℚ) ^ frac.length)
    | _, _ => none

/-- Decimal number parse (optional minus, digits, optional fraction). -/
def parseQD (s : String) : Option ℚ :=
  match s.data with
  | '-' :: rest => (parsePosQ rest).map Neg.neg
  | l => parsePosQ l

/-! ### Arithmetic engine

Modelled from the spec: `arithmetic.go` is absent from `src/`; the operator
semantics below follow spec §4.1 (numeric degradation, string concatenation
for `+`, divide-by-zero) with the behaviour pinned by the in-repo tests
`TestArithmeticNumberDegradation` and `TestArithmetic`
(`arithmetic_test.go`).  In particular those tests fix the divide-by-zero
error to carry the annotation of the *right*-operand function: the case
"dont divide by zero 2" uses left annotation `"left thing"` and right
annotation `"foobar"` and expects `"foobar: attempted to divide by zero"`. -/

/-- Numeric value after coercion: 64-bit signed integer or float. -/
inductive NumV where
  | iv (n : Int)
  | fv (q : ℚ)

/-- Numeric coercion (spec §4.1): ints stay ints (unsigned reinterpreted in
64-bit signed), floats stay floats, deferred numbers and strings parse as
int-then-float, bool and null are rejected. -/
def coerceNum : Value → Option NumV
  | .vint n => some (.iv n)
  | .vuint n => some (.iv (i64 n))
  | .vfloat q => some (.fv q)
  | .vnum s =>
    match parseIntD s with
    | some n => some (.iv n)
    | none => (parseQD s).map .fv
  | .vstr s =>
    match parseIntD s with
    | some n => some (.iv n)
    | none => (parseQD s).map .fv
  | _ => none

/-- View a coerced number as a float. -/
def NumV.toQ : NumV → ℚ
  | .iv n => (n : ℚ)
  | .fv q => q

/-- The degradable arithmetic operators. -/
inductive ArithOp where
  | add
  | sub
  | mul
  | div
  | mod

/-- Verb used in the type-mismatch message. -/
def opText : ArithOp → String
  | .add => "add"
  | .sub => "subtract"
  | .mul => "multiply"
  | .div => "divide"
  | .mod => "modulo"

/-- The divide-by-zero message (arithmetic_test.go:171,183). -/
def dbzMsg : String := "attempted to divide by zero"

/-- An error prefixed by a function's annotation. -/
def errFrom (ann e : String) : String := ann ++ (": " ++ e)

/-- The numeric-coercion failure message, e.g. `cannot add types string
(from left) and number (from right)` (arithmetic_test.go:82-100). -/
def mismatchMsg (op : ArithOp) (lAnn rAnn : String) (l r : Value) : String :=
  "cannot " ++ opText op ++ " types " ++ kindOf l ++ " (from " ++ lAnn ++
    ") and " ++ kindOf r ++ " (from " ++ rAnn ++ ")"

/-- Truncation toward zero (Go integer conversion of a float). -/
def qTrunc (q : ℚ) : Int := if q < 0 then -((-q).floor) else q.floor

/-- Go `math.Mod` on the rational model (truncated remainder). -/
def qTMod (a b : ℚ) : ℚ := a - b * (qTrunc (a / b) : ℚ)

/-- Modelled from the spec: `numberDegradationFunc`.  Both operands coerce or
the mismatch error fires; two integers compute in 64-bit signed; otherwise
the computation degrades to float.  An error raised by the picked operation
is prefixed with the right operand's annotation (see the section comment). -/
def numberDegradation (op : ArithOp) (intFn : Int → Int → Except String Int)
    (floatFn : ℚ → ℚ → Except String ℚ) (lAnn rAnn : String) (l r : Value) :
    Except String Value :=
  match coerceNum l, coerceNum r with
  | some (.iv a), some (.iv b) =>
    match intFn a b with
    | .ok n => .ok (.vint (i64 n))
    | .error e => .error (errFrom rAnn e)
  | some a, some b =>
    match floatFn a.toQ b.toQ with
    | .ok q => .ok (.vfloat q)
    | .error e => .error (errFrom rAnn e)
  | _, _ => .error (mismatchMsg op lAnn rAnn l r)

/-- Modelled from the spec: the per-operator semantics of `+ − × ÷ %`.
`+` concatenates two strings and rejects string/non-string pairs (spec
§4.1); `÷` promotes to float exactly when the exact quotient is not an
integer; `%` and `÷` fail on a zero right operand. -/
def applyArith (op : ArithOp) (lAnn rAnn : String) (l r : Value) :
    Except String Value :=
  match op with
  | .add =>
    match l, r with
    | .vstr a, .vstr b => .ok (.vstr (a ++ b))
    | .vstr _, _ => .error (mismatchMsg .add lAnn rAnn l r)
    | _, .vstr _ => .error (mismatchMsg .add lAnn rAnn l r)
    | _, _ =>
      numberDegradation .add (fun a b => .ok (a + b)) (fun a b => .ok (a + b))
        lAnn rAnn l r
  | .sub =>
    numberDegradation .sub (fun a b => .ok (a - b)) (fun a b => .ok (a - b))
      lAnn rAnn l r
  | .mul =>
    numberDegradation .mul (fun a b => .ok (a * b)) (fun a b => .ok (a * b))
      lAnn rAnn l r
  | .mod =>
    numberDegradation .mod
      (fun a b => if b = 0 then .error dbzMsg else .ok (Int.tmod a b))
      (fun a b => if b = 0 then .error dbzMsg else .ok (qTMod a b))
      lAnn rAnn l r
  | .div =>
    match coerceNum l, coerceNum r with
    | some (.iv a), some (.iv b) =>
      if b = 0 then .error (errFrom rAnn dbzMsg)
      else if Int.tmod a b = 0 then .ok (.vint (i64 (Int.tdiv a b)))
      else .ok (.vfloat ((a : ℚ) / (b : ℚ)))
    | some a, some b =>
      if b.toQ = 0 then .error (errFrom rAnn dbzMsg)
      else .ok (.vfloat (a.toQ / b.toQ))
    | _, _ => .error (mismatchMsg .div lAnn rAnn l r)

/-! ### The slice method (methods_structured.go:1234-1294)

The three input kinds (string, bytes, array) run the identical
`getBounds`-then-reslice code over their length; we embed the shared logic
over `List Nat`. -/

/-- Constructor-time validation (methods_structured.go:1240-1242):
`endV > 0 && start >= endV` rejects the arguments. -/
def sliceCtorCheck (start : Int) (high : Option Int) : Except String Unit :=
  match high with
  | some e =>
    if 0 < e ∧ e ≤ start then
      .error ("lower slice bound " ++ toString start ++
        " must be lower than upper (" ++ toString e ++ ")")
    else .ok ()
  | none => .ok ()

/-- `getBounds` (methods_structured.go:1244-1270). -/
def getBounds (start : Int) (high : Option Int) (l : Int) :
    Except String (Int × Int) :=
  let endV0 :=
    match high with
    | none => l
    | some e => if e < 0 then l + e else e
  let endV1 := if endV0 > l then l else endV0
  let endV := if endV1 < 0 then 0 else endV1
  let startV := if start < 0 then (if l + start < 0 then 0 else l + start) else start
  if startV > endV then
    .error ("lower slice bound " ++ toString startV ++
      " must be lower than or equal to upper bound (" ++ toString endV ++
      ") and target length (" ++ toString l ++ ")")
  else .ok (startV, endV)

/-- The full slice call: validation, bound resolution, then `t[start:end]`. -/
def sliceApply (start : Int) (high : Option Int) (xs : List Nat) :
    Except String (List Nat) :=
  match sliceCtorCheck start high with
  | .error e => .error e
  | .ok _ =>
    match getBounds start high (xs.length : Int) with
    | .error e => .error e
    | .ok (s, e) => .ok ((xs.drop s.toNat).take (e - s).toNat)

/-- The length formula asserted by the claim (spec §8), written from the
claim's words: `max(0, min(j,|x|) − max(i+|x|·[i<0], 0))` with `j`
defaulting to `|x|`. -/
def sliceClaimedLen (i : Int) (j : Option Int) (l : Int) : Int :=
  max 0 (min (j.getD l) l - max (if i < 0 then i + l else i) 0)

/-- The resolved lower bound the code computes. -/
def sliceLowRes (i l : Int) : Int := max (if i < 0 then i + l else i) 0

/-- The resolved upper bound the code computes for a non-negative (or
omitted) high argument. -/
def sliceHighRes (j : Option Int) (l : Int) : Int := min (j.getD l) l

/-! ### The sum method (methods_structured.go:1313-1339)

Errors are modelled structurally: the error constructors of the query
package (`errors.go`) are not part of `src/`, and the claims only need the
error's shape — which kinds a type error names, and that array-element
failures carry an index. -/

/-- Structured query errors. -/
inductive QErr where
  | typeErr (got : String) (want : List String)
  | typeErrFrom (ann got : String) (want : List String)
  | indexed (idx : Nat) (inner : QErr)
  | plain (s : String)

/-- `IGetNumber`: extract a float from a numeric value; non-numeric kinds
raise a type error naming `number`. -/
def IGetNumber : Value → Except QErr ℚ
  | .vfloat q => .ok q
  | .vint n => .ok (n : ℚ)
  | .vuint n => .ok (n : ℚ)
  | .vnum s =>
    match parseQD s with
    | some q => .ok q
    | none => .error (.plain s)
  | v => .error (.typeErr (kindOf v) ["number"])

/-- One iteration of `sumMethod`'s loop: a failing element records its
indexed error (later failures overwrite earlier ones, as in the Go loop),
a numeric element is added to the running total. -/
def sumStep (acc : Option QErr × ℚ) (iv : Nat × Value) : Option QErr × ℚ :=
  match IGetNumber iv.2 with
  | .ok n => (acc.1, acc.2 + n)
  | .error e => (some (.indexed iv.1 e), acc.2)

/-- `sumMethod` (methods_structured.go:1313-1339): single numeric values
(`float64`, `int64`, `uint64`, `json.Number` after `ISanitize`) are returned
unchanged; arrays are summed as float; anything else raises the type error
naming `array`. -/
def sumFn (ann : String) (v : Value) : Except QErr Value :=
  match v with
  | .vfloat _ => .ok v
  | .vint _ => .ok v
  | .vuint _ => .ok v
  | .vnum _ => .ok v
  | .varr t =>
    let r := t.enum.foldl sumStep (none, 0)
    match r.1 with
    | some e => .error e
    | none => .ok (.vfloat r.2)
  | _ => .error (.typeErrFrom ann (kindOf v) ["array"])

/-- Numeric kinds: the `case float64, int64, uint64, json.Number` arm of
`sumMethod`. -/
def isNumericValue : Value → Bool
  | .vint _ => true
  | .vuint _ => true
  | .vfloat _ => true
  | .vnum _ => true
  | _ => false

/-! ### Function and method sets

`FunctionSet` is embedded from the `function_set.go` source shipped with
`method_set_test.go`; constructors and specs are opaque identifiers since
the claims only observe membership.  Go maps carry unique keys, so
association lists are a faithful model.  `MethodSet` is modelled from the
spec (its source is absent from `src/`): per spec §4.2 it mirrors
`FunctionSet` with the `unrecognised method 'X'` error, as
`TestMethodSetWithout` confirms. -/

/-- First-match association-list lookup (Go map indexing). -/
def lookupName : List (String × Nat) → String → Option Nat
  | [], _ => none
  | (k, v) :: rest, n => if k = n then some v else lookupName rest n

/-- The unknown-function error (spec §4.2). -/
def badFunctionErr (name : String) : String :=
  "unrecognised function \x27" ++ name ++ "\x27"

/-- The unknown-method error (spec §4.2, method_set_test.go:25). -/
def badMethodErr (name : String) : String :=
  "unrecognised method \x27" ++ name ++ "\x27"

/-- `FunctionSet` (function_set.go): name-addressed constructors and specs. -/
structure FunctionSet where
  constructors : List (String × Nat)
  specs : List (String × Nat)

/-- `FunctionSet.Without` (function_set.go:150-170): rebuild both maps,
keeping exactly the entries whose names are not excluded; the receiver is
untouched (the Go code writes only into the freshly allocated maps). -/
def FunctionSet.Without (f : FunctionSet) (functions : List String) :
    FunctionSet :=
  { constructors := f.constructors.filter fun kv => !functions.contains kv.1,
    specs := f.specs.filter fun kv => !functions.contains kv.1 }

/-- `FunctionSet.Init` (function_set.go:140-146): constructor lookup, or the
unrecognised-function error.  The dynamic-argument wrapping is identity on
the constructor identifier. -/
def FunctionSet.Init (f : FunctionSet) (name : String) : Except String Nat :=
  match lookupName f.constructors name with
  | some ctor => .ok ctor
  | none => .error (badFunctionErr name)

/-- Modelled from the spec: `MethodSet`, mirroring `FunctionSet`. -/
structure MethodSet where
  constructors : List (String × Nat)
  specs : List (String × Nat)

/-- Modelled from the spec: `MethodSet.Without`, a clone minus the named
entries. -/
def MethodSet.Without (f : MethodSet) (methods : List String) : MethodSet :=
  { constructors := f.constructors.filter fun kv => !methods.contains kv.1,
    specs := f.specs.filter fun kv => !methods.contains kv.1 }

/-- Modelled from the spec: `MethodSet.Init`. -/
def MethodSet.Init (f : MethodSet) (name : String) : Except String Nat :=
  match lookupName f.constructors name with
  | some ctor => .ok ctor
  | none => .error (badMethodErr name)

end Bloblang

/-- C3: the `auto` codec's choice by filename.  The claim says paths ending in
`.csv.gz` or `.csv.gzip` get `gzip/csv`.  The code initialises the choice from
`filepath.Ext`, which only ever returns the suffix after the *final* dot
(`.gz` / `.gzip`), so the `".csv.gz", ".csv.gzip"` switch cases
(reader.go:267) are unreachable and such paths fall through to `all-bytes`;
the remaining extension rules behave as claimed. -/
theorem autoCodec_extension_rules :
    Codec.autoCodec "foo.csv" = "csv"
    ∧ Codec.autoCodec "foo.tar" = "tar"
    ∧ Codec.autoCodec "foo.tgz" = "gzip/tar"
    ∧ Codec.autoCodec "foo.tar.gz" = "gzip/tar"
    ∧ Codec.autoCodec "foo.tar.gzip" = "gzip/tar"
    ∧ Codec.autoCodec "foo.txt" = "all-bytes"
    ∧ Codec.filepathExt "foo.csv.gz" = ".gz"
    ∧ Codec.autoCodec "foo.csv.gz" = "all-bytes"
    ∧ Codec.autoCodec "foo.csv.gzip" = "all-bytes" := by
  refine ⟨?_, ?_, ?_, ?_, ?_, ?_, ?_, ?_, ?_⟩ <;> decide

namespace Codec

theorem fireSourceAck_onceUsed (s : CRState) (e : Option String) :
    (fireSourceAck s e).onceUsed = true := by
  unfold fireSourceAck
  split <;> simp_all

theorem fireSourceAck_pending (s : CRState) (e : Option String) :
    (fireSourceAck s e).pending = s.pending := by
  unfold fireSourceAck
  split <;> rfl

theorem fireSourceAck_finished (s : CRState) (e : Option String) :
    (fireSourceAck s e).finished = s.finished := by
  unfold fireSourceAck
  split <;> rfl

theorem fireSourceAck_inv (s : CRState) (e : Option String) (h : crInv s) :
    crInv (fireSourceAck s e) := by
  unfold crInv fireSourceAck at *
  split <;> simp_all

theorem crStep_inv (s : CRState) (e : CREvent) (h : crInv s) :
    crInv (crStep s e) := by
  cases e with
  | nextPart => exact h
  | nextEOF => exact h
  | nextPartEOF => exact h
  | nextErr e => exact fireSourceAck_inv _ _ h
  | ackPart e =>
    cases e with
    | some err => exact fireSourceAck_inv _ _ h
    | none =>
      simp only [crStep]
      split
      · exact fireSourceAck_inv _ _ h
      · exact h
  | close =>
    simp only [crStep]
    by_cases hf : s.finished = true
    · rw [if_pos hf]
      by_cases hp : s.pending = 0
      · rw [if_pos hp]; exact fireSourceAck_inv _ _ h
      · rw [if_neg hp]; exact h
    · rw [if_neg hf]
      by_cases hp : s.pending = 0
      · rw [if_pos hp]; exact fireSourceAck_inv _ _ (fireSourceAck_inv _ _ h)
      · rw [if_neg hp]; exact fireSourceAck_inv _ _ h

theorem crFold_inv : ∀ (t : List CREvent) (s : CRState), crInv s →
    crInv (t.foldl crStep s)
  | [], _, h => h
  | e :: rest, s, h => crFold_inv rest (crStep s e) (crStep_inv s e h)

theorem crRun_inv (t : List CREvent) : crInv (crRun t) :=
  crFold_inv t crInit rfl

theorem crStep_once_mono (s : CRState) (e : CREvent) (h : s.onceUsed = true) :
    (crStep s e).onceUsed = true := by
  cases e with
  | nextPart => exact h
  | nextEOF => exact h
  | nextPartEOF => exact h
  | nextErr e => exact fireSourceAck_onceUsed _ _
  | ackPart e =>
    cases e with
    | some err => exact fireSourceAck_onceUsed _ _
    | none =>
      simp only [crStep]
      split
      · exact fireSourceAck_onceUsed _ _
      · exact h
  | close =>
    simp only [crStep]
    by_cases hf : s.finished = true
    · rw [if_pos hf]
      by_cases hp : s.pending = 0
      · rw [if_pos hp]; exact fireSourceAck_onceUsed _ _
      · rw [if_neg hp]; exact h
    · rw [if_neg hf]
      by_cases hp : s.pending = 0
      · rw [if_pos hp]; exact fireSourceAck_onceUsed _ _
      · rw [if_neg hp]; exact fireSourceAck_onceUsed _ _

theorem crFold_once_mono : ∀ (t : List CREvent) (s : CRState),
    s.onceUsed = true → (t.foldl crStep s).onceUsed = true
  | [], _, h => h
  | e :: rest, s, h => crFold_once_mono rest (crStep s e) (crStep_once_mono s e h)

theorem crStep_ack_finished (s : CRState) (o : Option String) :
    (crStep s (.ackPart o)).finished = s.finished := by
  cases o with
  | some err => exact fireSourceAck_finished _ _
  | none =>
    simp only [crStep]
    split
    · exact fireSourceAck_finished _ _
    · rfl

theorem crStep_close_pending (s : CRState) :
    (crStep s .close).pending = s.pending := by
  simp only [crStep]
  by_cases hf : s.finished = true
  · rw [if_pos hf]
    by_cases hp : s.pending = 0
    · rw [if_pos hp]; exact fireSourceAck_pending _ _
    · rw [if_neg hp]
  · rw [if_neg hf]
    by_cases hp : s.pending = 0
    · rw [if_pos hp, fireSourceAck_pending, fireSourceAck_pending]
    · rw [if_neg hp]; exact fireSourceAck_pending _ _

theorem crFold_pending : ∀ (t : List CREvent) (s : CRState),
    (t.foldl crStep s).pending =
      s.pending + (crPartCount t : Int) - (crAckCount t : Int) := by
  intro t
  induction t with
  | nil => intro s; simp [crPartCount, crAckCount]
  | cons e rest ih =>
    intro s
    cases e with
    | nextPart =>
      simp only [List.foldl_cons, ih, crStep, crPartCount, crAckCount]
      push_cast
      ring
    | nextEOF =>
      simp only [List.foldl_cons, ih, crStep, crPartCount, crAckCount]
    | nextPartEOF =>
      simp only [List.foldl_cons, ih, crStep, crPartCount, crAckCount]
      push_cast
      ring
    | nextErr e =>
      simp only [List.foldl_cons, ih, crStep, crPartCount, crAckCount,
        fireSourceAck_pending]
    | ackPart o =>
      have hp : (crStep s (.ackPart o)).pending = s.pending - 1 := by
        cases o with
        | some err => exact fireSourceAck_pending _ _
        | none =>
          simp only [crStep]
          split
          · exact fireSourceAck_pending _ _
          · rfl
      simp only [List.foldl_cons, ih, hp, crPartCount, crAckCount]
      push_cast
      ring
    | close =>
      simp only [List.foldl_cons, ih, crStep_close_pending, crPartCount,
        crAckCount]

theorem crAcks_completion : ∀ (t : List CREvent) (s : CRState),
    (∀ e ∈ t, crIsAck e = true) → s.finished = true →
    0 < s.pending → s.pending = (crAckCount t : Int) →
    (t.foldl crStep s).onceUsed = true := by
  intro t
  induction t with
  | nil =>
    intro s _ _ hpos hcount
    simp [crAckCount] at hcount
    omega
  | cons e rest ih =>
    intro s hacks hfin hpos hcount
    have he : crIsAck e = true := hacks e (by simp)
    cases e with
    | nextPart => simp [crIsAck] at he
    | nextEOF => simp [crIsAck] at he
    | nextPartEOF => simp [crIsAck] at he
    | nextErr e => simp [crIsAck] at he
    | close => simp [crIsAck] at he
    | ackPart o =>
      simp only [List.foldl_cons]
      cases o with
      | some err =>
        exact crFold_once_mono rest _ (fireSourceAck_onceUsed _ _)
      | none =>
        simp only [crStep]
        split
        · exact crFold_once_mono rest _ (fireSourceAck_onceUsed _ _)
        · rename_i hcond
          have hne : s.pending - 1 ≠ 0 := fun h0 => hcond ⟨h0, hfin⟩
          simp only [crAckCount] at hcount
          push_cast at hcount
          refine ih _ (fun e he => hacks e (by simp [he])) ?_ ?_ ?_
          · show s.finished = true
            exact hfin
          · show 0 < s.pending - 1
            omega
          · show s.pending - 1 = (crAckCount rest : Int)
            omega

end Codec

/-- C1 (counterexample): the claim asserts that for *every* codec reader,
all-bytes included, no sequence of `Next`/ack/`Close` calls can fire the
source ack twice.  `allBytesReader` is constructed with the raw, un-wrapped
source ack (reader.go:207-208, contrast `ackOnce` at reader.go:337), so a
successful `Next` followed by two invocations of the returned per-part ack
delivers the source ack twice. -/
theorem allBytes_ack_double_fire :
    (Codec.abRun [Codec.ABEvent.next, Codec.ABEvent.ackCall none,
      Codec.ABEvent.ackCall none]).fireLog = [none, none]
    ∧ (Codec.abRun [Codec.ABEvent.next, Codec.ABEvent.ackCall none,
      Codec.ABEvent.ackCall none]).fireLog.length = 2 := by
  constructor <;> rfl

/-- C1 (amended): for the counted leaf readers (lines, csv, delim, chunker,
tar) the source ack is wrapped with `ackOnce` at construction, so (1) under
*every* interleaving of `Next` results, per-part acks (nil or error) and
`Close`, the source ack fires at most once, and (2) it fires exactly once
across every complete lifetime: a trace that calls `Close`, invokes a
per-part ack once for every emitted part, and emits no parts after `Close`.
The all-bytes reader, whose ack is stored un-wrapped, is excluded (see the
counterexample). -/
theorem leafReader_sourceAck_once :
    (∀ t, (Codec.crRun t).fireLog.length ≤ 1)
    ∧ (∀ t1 t2, (∀ e ∈ t2, Codec.crIsAck e = true) →
        Codec.crPartCount t1 = Codec.crAckCount t1 + Codec.crAckCount t2 →
        (Codec.crRun (t1 ++ Codec.CREvent.close :: t2)).fireLog.length = 1) := by
  constructor
  · intro t
    have h := Codec.crRun_inv t
    unfold Codec.crInv at h
    rw [h]
    split <;> omega
  · intro t1 t2 hacks hcount
    have hinv := Codec.crRun_inv (t1 ++ Codec.CREvent.close :: t2)
    unfold Codec.crInv at hinv
    suffices honce : (Codec.crRun (t1 ++ Codec.CREvent.close :: t2)).onceUsed = true by
      rw [honce] at hinv
      simpa using hinv
    unfold Codec.crRun at *
    rw [List.foldl_append, List.foldl_cons]
    set sc := t1.foldl Codec.crStep Codec.crInit with hsc
    have hpend : sc.pending = (Codec.crPartCount t1 : Int) - (Codec.crAckCount t1 : Int) := by
      rw [hsc, Codec.crFold_pending]
      simp [Codec.crInit]
    by_cases hfin : sc.finished = true
    · by_cases hp : sc.pending = 0
      · have : (Codec.crStep sc .close).onceUsed = true := by
          simp only [Codec.crStep, hfin, if_true, hp, if_pos]
          exact Codec.fireSourceAck_onceUsed _ _
        exact Codec.crFold_once_mono _ _ this
      · have hstep : Codec.crStep sc .close = sc := by
          simp only [Codec.crStep, hfin, if_true, hp, if_neg]
          simp
        rw [hstep]
        by_cases husd : sc.onceUsed = true
        · exact Codec.crFold_once_mono _ _ husd
        · refine Codec.crAcks_completion t2 sc hacks hfin ?_ ?_
          · rw [hpend]
            have : (Codec.crPartCount t1 : Int) - (Codec.crAckCount t1 : Int) =
                (Codec.crAckCount t2 : Int) := by
              omega
            rw [this]
            have hne : sc.pending ≠ 0 := hp
            rw [hpend, this] at hne
            omega
          · rw [hpend]
            omega
    · have hfin' : sc.finished = false := by
        simpa using hfin
      have : (Codec.crStep sc .close).onceUsed = true := by
        simp only [Codec.crStep, hfin', if_false]
        split
        · exact Codec.fireSourceAck_onceUsed _ _
        · exact Codec.fireSourceAck_onceUsed _ _
      exact Codec.crFold_once_mono _ _ this

/-- Witness for C1 (amended): a concrete complete lifetime — one part
emitted, EOF observed, `Close`, then the part acked with nil — fires the
source ack exactly once. -/
theorem leafReader_sourceAck_once_witness :
    (Codec.crRun ([Codec.CREvent.nextPart, Codec.CREvent.nextEOF] ++
      Codec.CREvent.close :: [Codec.CREvent.ackPart none])).fireLog.length = 1 :=
  leafReader_sourceAck_once.2 [Codec.CREvent.nextPart, Codec.CREvent.nextEOF]
    [Codec.CREvent.ackPart none] (by decide) (by decide)

/-- C10: a counted leaf reader whose source yields zero parts — `Next`
observes EOF immediately (setting `finished`, firing nothing), and the
subsequent `Close` skips the shutdown-error ack because `finished` is set,
then fires the source ack with nil because `pending == 0`. -/
theorem leafReader_empty_source_ack :
    (Codec.crRun [Codec.CREvent.nextEOF]).fireLog = []
    ∧ (Codec.crRun [Codec.CREvent.nextEOF]).finished = true
    ∧ (Codec.crRun [Codec.CREvent.nextEOF, Codec.CREvent.close]).fireLog = [none] := by
  refine ⟨rfl, rfl, rfl⟩

namespace Codec

theorem isEmpty_false_pos (ps : List (List Nat)) (h : ¬isEmpty ps = true) :
    0 < ps.length := by
  by_cases h0 : ps.length = 0
  · simp [isEmpty, h0] at h
  · omega

theorem multipartNext_accum : ∀ (script : List ChildResp)
    (acc : List (List Nat)) (acks : List Nat), 0 < acc.length →
    multipartNext script acc acks = mpAccumSpec script acc acks := by
  intro script
  induction script with
  | nil => intro acc acks _; rfl
  | cons c rest ih =>
    intro acc acks hacc
    cases c with
    | eofResp =>
      simp only [multipartNext, mpAccumSpec]
      rw [List.takeWhile_cons_of_neg (by simp [respFull]),
        List.dropWhile_cons_of_neg (by simp [respFull])]
      simp [hacc]
    | errResp e =>
      simp only [multipartNext, mpAccumSpec]
      rw [List.takeWhile_cons_of_neg (by simp [respFull]),
        List.dropWhile_cons_of_neg (by simp [respFull])]
    | parts ps i =>
      by_cases hps : isEmpty ps = true
      · simp only [multipartNext, hps, if_true, mpAccumSpec]
        rw [List.takeWhile_cons_of_neg (by simp [respFull, hps]),
          List.dropWhile_cons_of_neg (by simp [respFull, hps])]
        simp [hacc]
      · simp only [multipartNext, hps, if_false]
        rw [ih (acc ++ ps) (acks ++ [i]) (by simp; omega)]
        simp only [mpAccumSpec]
        rw [List.takeWhile_cons_of_pos (by simp [respFull, hps]),
          List.dropWhile_cons_of_pos (by simp [respFull, hps])]
        simp only [List.map_cons, respParts, respAckId, List.flatten_cons,
          List.append_assoc]
        rfl

theorem multipartNextSpec_cons_empty (ps : List (List Nat)) (i : Nat)
    (rest : List ChildResp) (h : isEmpty ps = true) :
    multipartNextSpec (ChildResp.parts ps i :: rest) =
      (i :: (multipartNextSpec rest).1, (multipartNextSpec rest).2) := by
  simp only [multipartNextSpec]
  rw [List.takeWhile_cons_of_pos (by simp [respEmpty, h]),
    List.dropWhile_cons_of_pos (by simp [respEmpty, h])]
  simp only [List.map_cons, respAckId]
  cases hr : rest.dropWhile respEmpty with
  | nil => simp
  | cons c tail => cases c <;> simp

theorem multipartNext_eq_specAll : ∀ script : List ChildResp,
    multipartNext script [] [] = multipartNextSpec script := by
  intro script
  induction script with
  | nil => rfl
  | cons c rest ih =>
    cases c with
    | eofResp => rfl
    | errResp e => rfl
    | parts ps i =>
      by_cases hps : isEmpty ps = true
      · rw [multipartNextSpec_cons_empty ps i rest hps]
        simp only [multipartNext, hps, if_true, List.length_nil,
          gt_iff_lt, lt_irrefl, if_false]
        rw [ih]
      · simp only [multipartNext, hps, if_false, List.nil_append]
        rw [multipartNext_accum rest ps [i] (isEmpty_false_pos ps hps)]
        simp only [multipartNextSpec]
        rw [List.takeWhile_cons_of_neg (by simp [respEmpty, hps]),
          List.dropWhile_cons_of_neg (by simp [respEmpty, hps])]
        simp

theorem multipartNext_batch_pos : ∀ (script : List ChildResp)
    (acc : List (List Nat)) (acks l : List Nat) (ps : List (List Nat))
    (as : List Nat), multipartNext script acc acks = (l, .batch ps as) →
    0 < ps.length := by
  intro script
  induction script with
  | nil => intro acc acks l ps as h; simp [multipartNext] at h
  | cons c rest ih =>
    intro acc acks l ps as h
    cases c with
    | eofResp =>
      simp only [multipartNext] at h
      by_cases hacc : acc.length > 0
      · rw [if_pos hacc] at h
        obtain ⟨rfl⟩ : acc = ps := by
          injection h with h1 h2
          injection h2
        exact hacc
      · rw [if_neg hacc] at h
        simp at h
    | errResp e => simp [multipartNext] at h
    | parts qs i =>
      by_cases hqs : isEmpty qs = true
      · simp only [multipartNext, hqs, if_true] at h
        by_cases hacc : acc.length > 0
        · rw [if_pos hacc] at h
          obtain ⟨rfl⟩ : acc = ps := by
            injection h with h1 h2
            injection h2
          exact hacc
        · rw [if_neg hacc] at h
          have h2 : (multipartNext rest acc acks).2 = MpOut.batch ps as := by
            have := congrArg Prod.snd h
            simpa using this
          exact ih acc acks (multipartNext rest acc acks).1 ps as
            (by rw [← h2])
      · simp only [multipartNext, hqs, if_false] at h
        exact ih _ _ _ _ _ h

end Codec

/-- C4: the multipart wrapper's `Next` matches the specification contract:
consecutive non-empty upstream parts are accumulated; an empty upstream part
(zero parts, or one part with zero-length payload) is acked immediately with
nil and never surfaces; an empty part met with a non-empty accumulator closes
the batch; EOF flushes a non-empty accumulator as the final batch with nil
error and propagates EOF otherwise; and the combined ack forwards its
argument to each accumulated upstream ack. -/
theorem multipartNext_matches_spec :
    (∀ script : List Codec.ChildResp,
      Codec.multipartNext script [] [] = Codec.multipartNextSpec script)
    ∧ (∀ (acks : List Nat) (e : Option String),
      (Codec.multipartCombinedAck acks e).1 = acks.map fun i => (i, e)) := by
  exact ⟨Codec.multipartNext_eq_specAll, fun _ _ => rfl⟩

/-- C8: the multipart wrapper never returns an empty batch — whatever the
upstream script and however many leading empty parts it serves, a returned
batch is non-empty — and the combined ack forwards its argument to every
accumulated upstream ack while itself always returning nil
(reader.go:756-761 ignores the forwarded acks' return values). -/
theorem multipart_no_empty_batch :
    (∀ (script : List Codec.ChildResp) (l ps : List _) (as : List Nat),
      Codec.multipartNext script [] [] = (l, Codec.MpOut.batch ps as) → ps ≠ [])
    ∧ (∀ (acks : List Nat) (e : Option String) (i : Nat), i ∈ acks →
      (i, e) ∈ (Codec.multipartCombinedAck acks e).1)
    ∧ (∀ (acks : List Nat) (e : Option String),
      (Codec.multipartCombinedAck acks e).2 = none) := by
  refine ⟨?_, ?_, fun _ _ => rfl⟩
  · intro script l ps as h hnil
    have := Codec.multipartNext_batch_pos script [] [] l ps as h
    rw [hnil] at this
    simp at this
  · intro acks e i hi
    simp [Codec.multipartCombinedAck]
    exact hi

namespace Bloblang

theorem getBounds_ok (i : Int) (j : Option Int) (l : Int) (hl : 0 ≤ l)
    (hj : 0 ≤ j.getD 0) (hle : sliceLowRes i l ≤ sliceHighRes j l) :
    getBounds i j l = .ok (sliceLowRes i l, sliceHighRes j l) := by
  rcases j with _ | jv
  · simp only [sliceLowRes, sliceHighRes, Option.getD_none] at hle ⊢
    simp only [getBounds]
    by_cases hi : i < 0 <;>
      simp only [hi, if_true, if_false] at hle ⊢ <;>
      split_ifs <;>
      first
        | (exfalso; omega)
        | (simp only [Except.ok.injEq, Prod.mk.injEq]
           constructor <;> omega)
  · simp only [Option.getD_some] at hj
    simp only [sliceLowRes, sliceHighRes, Option.getD_some] at hle ⊢
    simp only [getBounds]
    by_cases hi : i < 0 <;>
      simp only [hi, if_true, if_false] at hle ⊢ <;>
      split_ifs <;>
      first
        | (exfalso; omega)
        | (simp only [Except.ok.injEq, Prod.mk.injEq]
           constructor <;> omega)

theorem getBounds_err (i : Int) (j : Option Int) (l : Int) (hl : 0 ≤ l)
    (hj : 0 ≤ j.getD 0) (hlt : sliceHighRes j l < sliceLowRes i l) :
    ∃ e, getBounds i j l = .error e := by
  rcases j with _ | jv
  · simp only [sliceLowRes, sliceHighRes, Option.getD_none] at hlt
    simp only [getBounds]
    by_cases hi : i < 0 <;>
      simp only [hi, if_true, if_false] at hlt ⊢ <;>
      split_ifs <;>
      first
        | exact ⟨_, rfl⟩
        | (exfalso; omega)
  · simp only [Option.getD_some] at hj
    simp only [sliceLowRes, sliceHighRes, Option.getD_some] at hlt
    simp only [getBounds]
    by_cases hi : i < 0 <;>
      simp only [hi, if_true, if_false] at hlt ⊢ <;>
      split_ifs <;>
      first
        | exact ⟨_, rfl⟩
        | (exfalso; omega)

end Bloblang

/-- C5 (counterexample): the claim says the slice succeeds with an empty
result whenever the resolved lower bound is at least the resolved upper
bound — its formula gives length 0 for `slice(x, 5)` on a 3-element `x` —
but the code raises the dynamic bound error whenever the resolved lower
bound strictly exceeds the resolved upper bound
(methods_structured.go:1266-1268). -/
theorem slice_length_counterexample :
    Bloblang.sliceApply 5 none [1, 2, 3] =
      .error ("lower slice bound 5 must be lower than or equal to upper " ++
        "bound (3) and target length (3)")
    ∧ Bloblang.sliceClaimedLen 5 none 3 = 0 := by
  exact ⟨rfl, rfl⟩

/-- C5 (amended): for a non-negative (or omitted) high bound `j`, the call
fails exactly when construction rejects the bounds (`j > 0 ∧ i ≥ j`) or the
resolved lower bound `max(i+|x|·[i<0], 0)` strictly exceeds the resolved
upper bound `min(j,|x|)`; whenever it succeeds — in particular whenever the
resolved bounds are equal and construction passes, giving an empty result —
the length equals the claim's formula
`max(0, min(j,|x|) − max(i+|x|·[i<0], 0))`. -/
theorem slice_length_amended :
    ∀ (i : Int) (j : Option Int) (xs : List Nat), 0 ≤ j.getD 0 →
    ((∃ e, Bloblang.sliceApply i j xs = .error e) ↔
      ((∃ jv, j = some jv ∧ 0 < jv ∧ jv ≤ i) ∨
        Bloblang.sliceHighRes j (xs.length : Int) <
          Bloblang.sliceLowRes i (xs.length : Int)))
    ∧ (∀ r, Bloblang.sliceApply i j xs = .ok r →
      (r.length : Int) = Bloblang.sliceClaimedLen i j (xs.length : Int)) := by
  intro i j xs hj
  have hl : (0 : Int) ≤ (xs.length : Int) := by omega
  have hctor : (∃ jv, j = some jv ∧ 0 < jv ∧ jv ≤ i) →
      ∃ e, Bloblang.sliceCtorCheck i j = .error e := by
    rintro ⟨jv, rfl, h1, h2⟩
    exact ⟨"lower slice bound " ++ toString i ++ " must be lower than upper (" ++
        toString jv ++ ")",
      by simp only [Bloblang.sliceCtorCheck, if_pos (And.intro h1 h2)]⟩
  by_cases hc : ∃ jv, j = some jv ∧ 0 < jv ∧ jv ≤ i
  · obtain ⟨e, he⟩ := hctor hc
    constructor
    · constructor
      · intro _
        exact Or.inl hc
      · intro _
        exact ⟨e, by simp only [Bloblang.sliceApply, he]⟩
    · intro r hr
      simp only [Bloblang.sliceApply, he] at hr
      exact Except.noConfusion hr
  · have hok : Bloblang.sliceCtorCheck i j = .ok () := by
      rcases j with _ | jv
      · rfl
      · simp only [Bloblang.sliceCtorCheck]
        rw [if_neg]
        rintro ⟨h1, h2⟩
        exact hc ⟨jv, rfl, h1, h2⟩
    by_cases hcmp : Bloblang.sliceHighRes j (xs.length : Int) <
        Bloblang.sliceLowRes i (xs.length : Int)
    · obtain ⟨e, he⟩ := Bloblang.getBounds_err i j (xs.length : Int) hl hj hcmp
      constructor
      · constructor
        · intro _
          exact Or.inr hcmp
        · intro _
          exact ⟨e, by simp only [Bloblang.sliceApply, hok, he]⟩
      · intro r hr
        simp only [Bloblang.sliceApply, hok, he] at hr
        exact Except.noConfusion hr
    · have hle : Bloblang.sliceLowRes i (xs.length : Int) ≤
          Bloblang.sliceHighRes j (xs.length : Int) := by omega
      have hgb := Bloblang.getBounds_ok i j (xs.length : Int) hl hj hle
      constructor
      · constructor
        · rintro ⟨e, he⟩
          simp only [Bloblang.sliceApply, hok, hgb] at he
          exact Except.noConfusion he
        · rintro (h | h)
          · exact absurd h hc
          · exact absurd h hcmp
      · intro r hr
        simp only [Bloblang.sliceApply, hok, hgb, Except.ok.injEq] at hr
        subst hr
        simp only [List.length_take, List.length_drop]
        rcases j with _ | jv
        · simp only [Bloblang.sliceClaimedLen, Bloblang.sliceLowRes,
            Bloblang.sliceHighRes, Option.getD_none] at *
          omega
        · simp only [Option.getD_some] at hj
          simp only [Bloblang.sliceClaimedLen, Bloblang.sliceLowRes,
            Bloblang.sliceHighRes, Option.getD_some] at *
          omega

/-- Witness for C5 (amended): `slice([9,9,9], 0, 2)` succeeds with length 2,
matching the formula, and its failure condition is falsified. -/
theorem slice_length_amended_witness :
    ((∃ e, Bloblang.sliceApply 0 (some 2) [9, 9, 9] = .error e) ↔
      ((∃ jv, (some 2 : Option Int) = some jv ∧ 0 < jv ∧ jv ≤ 0) ∨
        Bloblang.sliceHighRes (some 2) (([9, 9, 9] : List Nat).length : Int) <
          Bloblang.sliceLowRes 0 (([9, 9, 9] : List Nat).length : Int)))
    ∧ (∀ r, Bloblang.sliceApply 0 (some 2) [9, 9, 9] = .ok r →
      (r.length : Int) =
        Bloblang.sliceClaimedLen 0 (some 2) (([9, 9, 9] : List Nat).length : Int)) :=
  slice_length_amended 0 (some 2) [9, 9, 9] (by norm_num)

namespace Bloblang

theorem sumFold_indexed : ∀ (l : List (Nat × Value)) (acc : Option QErr × ℚ),
    (∀ e, acc.1 = some e → ∃ i e2, e = QErr.indexed i e2) →
    ∀ e, (l.foldl sumStep acc).1 = some e → ∃ i e2, e = QErr.indexed i e2 := by
  intro l
  induction l with
  | nil => intro acc h e he; exact h e he
  | cons x rest ih =>
    intro acc h e he
    refine ih (sumStep acc x) ?_ e he
    intro e' he'
    cases hnum : IGetNumber x.2 with
    | ok n =>
      simp only [sumStep, hnum] at he'
      exact h e' he'
    | error er =>
      simp only [sumStep, hnum, Option.some.injEq] at he'
      exact ⟨x.1, er, he'.symm⟩

theorem lookupName_filter (names : List String) :
    ∀ (l : List (String × Nat)) (n : String),
    lookupName (l.filter fun kv => !names.contains kv.1) n =
      if names.contains n then none else lookupName l n := by
  intro l
  induction l with
  | nil =>
    intro n
    simp only [List.filter_nil, lookupName, ite_self]
  | cons kv rest ih =>
    intro n
    obtain ⟨k, v⟩ := kv
    by_cases hk : names.contains k = true
    · rw [List.filter_cons_of_neg (by rw [hk]; decide)]
      rw [ih n]
      by_cases hn : k = n
      · subst hn
        rw [if_pos hk, if_pos hk]
      · simp only [lookupName]
        rw [if_neg hn]
    · have hk0 : names.contains k = false := by
        cases hcc : names.contains k
        · rfl
        · exact absurd hcc hk
      rw [List.filter_cons_of_pos (by rw [hk0]; decide)]
      simp only [lookupName]
      by_cases hn : k = n
      · subst hn
        rw [if_pos rfl, if_neg hk, if_pos rfl]
      · rw [if_neg hn, if_neg hn]
        exact ih n

end Bloblang

/-- C9: `sum()` on a single numeric target — signed int, unsigned int,
float, or deferred `json.Number` — returns the value unchanged; only
non-numeric, non-array targets raise the type error naming `array` as the
expected kind (array targets can only fail with an indexed element error). -/
theorem sum_numeric_passthrough : ∀ (ann : String) (v : Bloblang.Value),
    (Bloblang.isNumericValue v = true → Bloblang.sumFn ann v = .ok v)
    ∧ (Bloblang.isNumericValue v = false → (∀ l, v ≠ .varr l) →
      Bloblang.sumFn ann v =
        .error (.typeErrFrom ann (Bloblang.kindOf v) ["array"]))
    ∧ (∀ l e, v = .varr l → Bloblang.sumFn ann v = .error e →
      ∃ i e2, e = Bloblang.QErr.indexed i e2) := by
  intro ann v
  refine ⟨?_, ?_, ?_⟩
  · intro h
    cases v <;> first | rfl | simp [Bloblang.isNumericValue] at h
  · intro h hnot
    cases v <;>
      first
        | exact absurd rfl (hnot _)
        | rfl
        | simp [Bloblang.isNumericValue] at h
  · intro l e hv he
    subst hv
    simp only [Bloblang.sumFn] at he
    cases hf : (l.enum.foldl Bloblang.sumStep (none, 0)).1 with
    | some e' =>
      rw [hf] at he
      injection he with he2
      exact he2 ▸ Bloblang.sumFold_indexed l.enum (none, 0) (by simp) e' hf
    | none =>
      rw [hf] at he
      exact Except.noConfusion he

/-- Witness for C9: `sum` leaves `int64 3` unchanged, rejects `null` with
the array-naming type error, and an array containing a string fails with an
indexed error. -/
theorem sum_numeric_passthrough_witness :
    Bloblang.sumFn "target" (.vint 3) = .ok (.vint 3)
    ∧ Bloblang.sumFn "target" .vnull =
      .error (.typeErrFrom "target" "null" ["array"])
    ∧ ∃ i e2,
      Bloblang.QErr.indexed 0 (Bloblang.QErr.typeErr "string" ["number"]) =
        Bloblang.QErr.indexed i e2 :=
  ⟨(sum_numeric_passthrough "target" (.vint 3)).1 rfl,
    (sum_numeric_passthrough "target" .vnull).2.1 rfl
      (fun _ h => Bloblang.Value.noConfusion h),
    (sum_numeric_passthrough "target" (.varr [.vstr "x"])).2.2 [.vstr "x"]
      (Bloblang.QErr.indexed 0 (Bloblang.QErr.typeErr "string" ["number"]))
      rfl rfl⟩

/-- C7: `Without` on a function or method set keeps exactly the entries
whose names are not excluded (the original set, a pure value here as the Go
code only writes into freshly allocated maps, is untouched); `Init` of a
removed name on the clone fails with the unrecognised-name error while
`Init` of a present name on the original still succeeds. -/
theorem set_without_removes_names :
    ∀ (f : Bloblang.FunctionSet) (m : Bloblang.MethodSet)
      (names : List String) (n : String),
    (Bloblang.lookupName (f.Without names).constructors n =
      if names.contains n then none else Bloblang.lookupName f.constructors n)
    ∧ (names.contains n = true →
      (f.Without names).Init n = .error (Bloblang.badFunctionErr n))
    ∧ (∀ c, Bloblang.lookupName f.constructors n = some c → f.Init n = .ok c)
    ∧ (Bloblang.lookupName (m.Without names).constructors n =
      if names.contains n then none else Bloblang.lookupName m.constructors n)
    ∧ (names.contains n = true →
      (m.Without names).Init n = .error (Bloblang.badMethodErr n))
    ∧ (∀ c, Bloblang.lookupName m.constructors n = some c →
      m.Init n = .ok c) := by
  intro f m names n
  refine ⟨Bloblang.lookupName_filter names f.constructors n, ?_, ?_,
    Bloblang.lookupName_filter names m.constructors n, ?_, ?_⟩
  · intro h
    simp only [Bloblang.FunctionSet.Init, Bloblang.FunctionSet.Without]
    rw [Bloblang.lookupName_filter names f.constructors n, if_pos h]
  · intro c hc
    simp only [Bloblang.FunctionSet.Init, hc]
  · intro h
    simp only [Bloblang.MethodSet.Init, Bloblang.MethodSet.Without]
    rw [Bloblang.lookupName_filter names m.constructors n, if_pos h]
  · intro c hc
    simp only [Bloblang.MethodSet.Init, hc]

/-- Witness for C7: the scenario of `TestMethodSetWithout` — a set holding
`explode` and `map_each`, cloned without `explode`: `Init "explode"` fails
on the clone with the unrecognised-method error and still succeeds on the
original. -/
theorem set_without_removes_names_witness :
    (Bloblang.MethodSet.Init
      (Bloblang.MethodSet.Without ⟨[("explode", 0), ("map_each", 1)], []⟩
        ["explode"]) "explode" = .error (Bloblang.badMethodErr "explode"))
    ∧ (Bloblang.MethodSet.Init
      (⟨[("explode", 0), ("map_each", 1)], []⟩ : Bloblang.MethodSet)
      "explode" = .ok 0) :=
  ⟨(set_without_removes_names ⟨[], []⟩ ⟨[("explode", 0), ("map_each", 1)], []⟩
      ["explode"] "explode").2.2.2.2.1 (by decide),
    (set_without_removes_names ⟨[], []⟩ ⟨[("explode", 0), ("map_each", 1)], []⟩
      ["explode"] "explode").2.2.2.2.2 0 (by decide)⟩

/-- C2 (counterexample): with left annotation `"left thing"` and right
annotation `"foobar"` — the exact situation of the in-repo test
"dont divide by zero 2" (arithmetic_test.go:173-183) — dividing by zero
reports `foobar: attempted to divide by zero`, not the
`left thing: attempted to divide by zero` the claim's `<lannotation>`
reading predicts. -/
theorem divideByZero_left_annotation_counterexample :
    Bloblang.applyArith .div "left thing" "foobar"
      (.vint 5) (.vint 0) = .error "foobar: attempted to divide by zero"
    ∧ "foobar: attempted to divide by zero" ≠
      "left thing: attempted to divide by zero" := by
  exact ⟨rfl, by decide⟩

/-- C2 (amended): `÷` and `%` on a zero right operand fail with
`<rannotation>: attempted to divide by zero`, where `<rannotation>` is the
annotation of the *right* operand function. -/
theorem divideByZero_right_annotation :
    ∀ (lAnn rAnn : String) (a : Int),
    Bloblang.applyArith .div lAnn rAnn (.vint a) (.vint 0) =
      .error (rAnn ++ ": attempted to divide by zero")
    ∧ Bloblang.applyArith .mod lAnn rAnn (.vint a) (.vint 0) =
      .error (rAnn ++ ": attempted to divide by zero")
    ∧ ∀ q : ℚ, Bloblang.applyArith .div lAnn rAnn (.vfloat q) (.vfloat 0) =
      .error (rAnn ++ ": attempted to divide by zero") := by
  intro lAnn rAnn a
  refine ⟨?_, ?_, fun q => ?_⟩
  · simp [Bloblang.applyArith, Bloblang.coerceNum, Bloblang.errFrom,
      Bloblang.dbzMsg]
  · simp [Bloblang.applyArith, Bloblang.numberDegradation, Bloblang.coerceNum,
      Bloblang.errFrom, Bloblang.dbzMsg]
  · simp [Bloblang.applyArith, Bloblang.coerceNum, Bloblang.NumV.toQ,
      Bloblang.errFrom, Bloblang.dbzMsg]

/-- C6: numeric degradation of `+ − × %` — two integer-coercing operands
compute in 64-bit signed integers and stay integral (`int64 12 + uint32 3 =
int64 15`); a float on either side degrades the result to float
(`12.0 + 3 = 15.0`); and `+` over a string and a number fails with
`cannot add types string (from left) and number (from right)`. -/
theorem arithmetic_number_degradation :
    (Bloblang.applyArith .add "left" "right" (.vint 12) (.vuint 3) =
      .ok (.vint 15))
    ∧ (Bloblang.applyArith .add "left" "right" (.vfloat 12) (.vint 3) =
      .ok (.vfloat 15))
    ∧ (Bloblang.applyArith .add "left" "right" (.vstr "x") (.vint 3) =
      .error "cannot add types string (from left) and number (from right)")
    ∧ (∀ (lAnn rAnn : String) (a b : Int),
      Bloblang.applyArith .add lAnn rAnn (.vint a) (.vint b) =
        .ok (.vint (Bloblang.i64 (a + b)))
      ∧ Bloblang.applyArith .sub lAnn rAnn (.vint a) (.vint b) =
        .ok (.vint (Bloblang.i64 (a - b)))
      ∧ Bloblang.applyArith .mul lAnn rAnn (.vint a) (.vint b) =
        .ok (.vint (Bloblang.i64 (a * b)))
      ∧ (b ≠ 0 → Bloblang.applyArith .mod lAnn rAnn (.vint a) (.vint b) =
        .ok (.vint (Bloblang.i64 (Int.tmod a b)))))
    ∧ (∀ (lAnn rAnn : String) (q : ℚ) (a : Int),
      Bloblang.applyArith .add lAnn rAnn (.vfloat q) (.vint a) =
        .ok (.vfloat (q + (a : ℚ)))
      ∧ Bloblang.applyArith .add lAnn rAnn (.vint a) (.vfloat q) =
        .ok (.vfloat ((a : ℚ) + q))
      ∧ Bloblang.applyArith .sub lAnn rAnn (.vfloat q) (.vint a) =
        .ok (.vfloat (q - (a : ℚ)))
      ∧ Bloblang.applyArith .mul lAnn rAnn (.vfloat q) (.vint a) =
        .ok (.vfloat (q * (a : ℚ)))
      ∧ ((a : ℚ) ≠ 0 →
        Bloblang.applyArith .mod lAnn rAnn (.vfloat q) (.vint a) =
          .ok (.vfloat (Bloblang.qTMod q ((a : Int) : ℚ))))) := by
  refine ⟨rfl, ?_, rfl, ?_, ?_⟩
  · simp [Bloblang.applyArith, Bloblang.numberDegradation, Bloblang.coerceNum,
      Bloblang.NumV.toQ]
    norm_num
  · intro lAnn rAnn a b
    refine ⟨rfl, rfl, rfl, fun hb => ?_⟩
    simp [Bloblang.applyArith, Bloblang.numberDegradation, Bloblang.coerceNum,
      hb]
  · intro lAnn rAnn q a
    refine ⟨?_, ?_, ?_, ?_, fun ha => ?_⟩ <;>
      simp [Bloblang.applyArith, Bloblang.numberDegradation,
        Bloblang.coerceNum, Bloblang.NumV.toQ, *]

/-- Witness for C6: the hypothesis-guarded `%` clauses at `7 % 2` (integral)
and `5.0 % 2` (float degradation). -/
theorem arithmetic_number_degradation_witness :
    Bloblang.applyArith .mod "l" "r" (.vint 7) (.vint 2) =
      .ok (.vint (Bloblang.i64 (Int.tmod 7 2)))
    ∧ Bloblang.applyArith .mod "l" "r" (.vfloat 5) (.vint 2) =
      .ok (.vfloat (Bloblang.qTMod 5 (((2 : Int)) : ℚ))) :=
  ⟨(arithmetic_number_degradation.2.2.2.1 "l" "r" 7 2).2.2.2 (by decide),
    (arithmetic_number_degradation.2.2.2.2 "l" "r" 5 2).2.2.2.2 (by norm_num)⟩

/-- Witness for C8: a concrete script — one empty part, one single-part
response, EOF — yields the non-empty batch `[[1]]`, and the combined ack over
`[0]` forwards nil to ack 0. -/
theorem multipart_no_empty_batch_witness :
    ¬([[(1 : Nat)]] = ([] : List (List Nat)))
    ∧ ((0 : Nat), (none : Option String)) ∈
      (Codec.multipartCombinedAck [0] none).1 :=
  ⟨multipart_no_empty_batch.1 [Codec.ChildResp.parts [] 5,
      Codec.ChildResp.parts [[1]] 0, Codec.ChildResp.eofResp] [5] [[1]] [0]
      (by decide),
    multipart_no_empty_batch.2.1 [0] none 0 (by decide)⟩
